import Mathlib

/-!
Verification of the "Hide From The Monster" browser game sources.

The game's numeric values are JS doubles; the embedding models them as exact
rationals (`ℚ`).  The canvas dimensions `W`, `H` and the wall list are module
globals read from the DOM in the source; here they are explicit parameters.
All definitions are direct translations of the source functions and keep their
names.
-/

set_option linter.unusedVariables false

/-- Axis-aligned rectangle, from `rect(x, y, w, h)` in the source. -/
structure Rect where
  x : ℚ
  y : ℚ
  w : ℚ
  h : ℚ
deriving DecidableEq

/-- JS `clamp(v, lo, hi) = Math.max(lo, Math.min(hi, v))`. -/
def clamp (v lo hi : ℚ) : ℚ := max lo (min hi v)

/-- Source `intersectsAABB(a, b)`: strict overlap on both axes. -/
def intersectsAABB (a b : Rect) : Bool :=
  decide (a.x < b.x + b.w) && decide (a.x + a.w > b.x) &&
  decide (a.y < b.y + b.h) && decide (a.y + a.h > b.y)

/-- Source `resolveStaticCollision(mover, stat)`: if overlapping, push the mover out
along the axis of smaller overlap, signed by which side the mover's top-left
edge is on.  The source mutates `mover` in place; here the updated mover is
returned. -/
def resolveStaticCollision (mover stat : Rect) : Rect :=
  if intersectsAABB mover stat then
    let ax1 := mover.x
    let ax2 := mover.x + mover.w
    let ay1 := mover.y
    let ay2 := mover.y + mover.h
    let bx1 := stat.x
    let bx2 := stat.x + stat.w
    let by1 := stat.y
    let by2 := stat.y + stat.h
    let overlapX := min ax2 bx2 - max ax1 bx1
    let overlapY := min ay2 by2 - max ay1 by1
    if overlapX < overlapY then
      if ax1 < bx1 then { mover with x := mover.x - overlapX }
      else { mover with x := mover.x + overlapX }
    else
      if ay1 < by1 then { mover with y := mover.y - overlapY }
      else { mover with y := mover.y + overlapY }
  else mover

/-- Source `pointInRect(px, py, r)`: closed-rectangle membership. -/
def pointInRect (px py : ℚ) (r : Rect) : Bool :=
  decide (px ≥ r.x) && decide (px ≤ r.x + r.w) &&
  decide (py ≥ r.y) && decide (py ≤ r.y + r.h)

/-- The Liang-Barsky clipping loop of `segmentIntersectsRect`, over the list of
`(p[i], q[i])` constraint pairs, carrying the admissible parameter interval
`[t0, t1]`.  A zero direction coefficient performs no division and rejects only
when the matching `q` is negative. -/
def clipLoop : List (ℚ × ℚ) → ℚ → ℚ → Bool
  | [], _, _ => true
  | pq :: rest, t0, t1 =>
    if pq.1 = 0 then
      if pq.2 < 0 then false else clipLoop rest t0 t1
    else
      let t := pq.2 / pq.1
      if pq.1 < 0 then
        if t1 < t then false else clipLoop rest (max t0 t) t1
      else
        if t < t0 then false else clipLoop rest t0 (min t1 t)

/-- The four `(p[i], q[i])` pairs built by `segmentIntersectsRect`:
`p = [-dx, dx, -dy, dy]`, `q = [x1 - r.x, (r.x + r.w) - x1, y1 - r.y, (r.y + r.h) - y1]`. -/
def lbList (x1 y1 x2 y2 : ℚ) (r : Rect) : List (ℚ × ℚ) :=
  [(-(x2 - x1), x1 - r.x), (x2 - x1, r.x + r.w - x1),
   (-(y2 - y1), y1 - r.y), (y2 - y1, r.y + r.h - y1)]

/-- Source `segmentIntersectsRect(x1, y1, x2, y2, r)`: true if either endpoint is
inside `r`, else Liang-Barsky clipping starting from `t0 = 0`, `t1 = 1`. -/
def segmentIntersectsRect (x1 y1 x2 y2 : ℚ) (r : Rect) : Bool :=
  pointInRect x1 y1 r || pointInRect x2 y2 r || clipLoop (lbList x1 y1 x2 y2 r) 0 1

/-- Source `hasLineOfSight(ax, ay, bx, by)`: no wall rectangle meets the segment.
The wall list is the module global `walls`; it is a parameter here. -/
def hasLineOfSight (walls : List Rect) (ax ay bx byv : ℚ) : Bool :=
  walls.all fun w => ! segmentIntersectsRect ax ay bx byv w

/-- Source `norm(x, y)` from the source divides by `Math.hypot(x, y) || 1`.  The
hypotenuse is irrational in general, so it is passed in as `l`; for the inputs
the claims touch, `Math.hypot(0, 0) = 0` exactly.  JS `l || 1` is the
`if l = 0 then 1 else l` fallback. -/
def normWith (l x y : ℚ) : ℚ × ℚ :=
  let d := if l = 0 then 1 else l
  (x / d, y / d)

/-- Source `moveEntity(ent, vx, vy, dt)`: integrate position, resolve against every
wall in list order, then clamp the bounding box into the `W × H` arena. -/
def moveEntity (W H : ℚ) (walls : List Rect) (e : Rect) (vx vy dt : ℚ) : Rect :=
  let e1 : Rect := { e with x := e.x + vx * dt, y := e.y + vy * dt }
  let e2 := walls.foldl (fun acc wl => resolveStaticCollision acc wl) e1
  { e2 with x := clamp e2.x 0 (W - e2.w), y := clamp e2.y 0 (H - e2.h) }

/-- The arena-bounds invariant of the spec: `0 ≤ x`, `x + w ≤ W`, `0 ≤ y`,
`y + h ≤ H`. -/
def inArena (W H : ℚ) (r : Rect) : Prop :=
  0 ≤ r.x ∧ r.x + r.w ≤ W ∧ 0 ≤ r.y ∧ r.y + r.h ≤ H

instance (W H : ℚ) (r : Rect) : Decidable (inArena W H r) := by
  unfold inArena; infer_instance

/-- The module-global `walls` list of the source, parameterized by the canvas
size `W × H` read from the DOM. -/
def gameWalls (W H : ℚ) : List Rect :=
  [⟨0, 0, W, 16⟩, ⟨0, H - 16, W, 16⟩, ⟨0, 0, 16, H⟩, ⟨W - 16, 0, 16, H⟩,
   ⟨140, 80, 520, 18⟩, ⟨140, 80, 18, 250⟩, ⟨320, 160, 18, 260⟩,
   ⟨480, 250, 320, 18⟩, ⟨650, 120, 18, 210⟩, ⟨210, 360, 260, 18⟩,
   ⟨760, 360, 18, 120⟩, ⟨90, 420, 180, 18⟩]

lemma resolveStaticCollision_w (m s : Rect) : (resolveStaticCollision m s).w = m.w := by
  unfold resolveStaticCollision
  dsimp only
  split_ifs <;> rfl

lemma resolveStaticCollision_h (m s : Rect) : (resolveStaticCollision m s).h = m.h := by
  unfold resolveStaticCollision
  dsimp only
  split_ifs <;> rfl

lemma foldl_resolve_w (walls : List Rect) (e : Rect) :
    (walls.foldl (fun acc wl => resolveStaticCollision acc wl) e).w = e.w := by
  induction walls generalizing e with
  | nil => rfl
  | cons wl rest ih => simp [List.foldl, ih, resolveStaticCollision_w]

lemma foldl_resolve_h (walls : List Rect) (e : Rect) :
    (walls.foldl (fun acc wl => resolveStaticCollision acc wl) e).h = e.h := by
  induction walls generalizing e with
  | nil => rfl
  | cons wl rest ih => simp [List.foldl, ih, resolveStaticCollision_h]

lemma moveEntity_w (W H : ℚ) (walls : List Rect) (e : Rect) (vx vy dt : ℚ) :
    (moveEntity W H walls e vx vy dt).w = e.w := by
  unfold moveEntity
  simp [foldl_resolve_w]

lemma moveEntity_h (W H : ℚ) (walls : List Rect) (e : Rect) (vx vy dt : ℚ) :
    (moveEntity W H walls e vx vy dt).h = e.h := by
  unfold moveEntity
  simp [foldl_resolve_h]

lemma foldl_moveEntity_w (W H : ℚ) (walls : List Rect) (us : List (ℚ × ℚ × ℚ)) (e : Rect) :
    (us.foldl (fun a u => moveEntity W H walls a u.1 u.2.1 u.2.2) e).w = e.w := by
  induction us generalizing e with
  | nil => rfl
  | cons z zs ihz => simp [List.foldl, ihz, moveEntity_w]

lemma foldl_moveEntity_h (W H : ℚ) (walls : List Rect) (us : List (ℚ × ℚ × ℚ)) (e : Rect) :
    (us.foldl (fun a u => moveEntity W H walls a u.1 u.2.1 u.2.2) e).h = e.h := by
  induction us generalizing e with
  | nil => rfl
  | cons z zs ihz => simp [List.foldl, ihz, moveEntity_h]

lemma moveEntity_inArena (W H : ℚ) (walls : List Rect) (e : Rect) (vx vy dt : ℚ)
    (hw : e.w ≤ W) (hh : e.h ≤ H) :
    inArena W H (moveEntity W H walls e vx vy dt) := by
  have hw2 : (moveEntity W H walls e vx vy dt).w = e.w := moveEntity_w ..
  have hh2 : (moveEntity W H walls e vx vy dt).h = e.h := moveEntity_h ..
  unfold moveEntity at hw2 hh2 ⊢
  refine ⟨le_max_left _ _, ?_, le_max_left _ _, ?_⟩
  · have h1 : clamp (walls.foldl (fun acc wl => resolveStaticCollision acc wl)
        { e with x := e.x + vx * dt, y := e.y + vy * dt }).x 0
        (W - (walls.foldl (fun acc wl => resolveStaticCollision acc wl)
        { e with x := e.x + vx * dt, y := e.y + vy * dt }).w) ≤
        W - (walls.foldl (fun acc wl => resolveStaticCollision acc wl)
        { e with x := e.x + vx * dt, y := e.y + vy * dt }).w := by
      apply max_le
      · have : (walls.foldl (fun acc wl => resolveStaticCollision acc wl)
            { e with x := e.x + vx * dt, y := e.y + vy * dt }).w = e.w :=
          foldl_resolve_w ..
        rw [this]; linarith
      · exact min_le_left _ _
    simp only [clamp] at h1 ⊢
    simp only [foldl_resolve_w] at h1 ⊢
    linarith
  · have h1 : clamp (walls.foldl (fun acc wl => resolveStaticCollision acc wl)
        { e with x := e.x + vx * dt, y := e.y + vy * dt }).y 0
        (H - (walls.foldl (fun acc wl => resolveStaticCollision acc wl)
        { e with x := e.x + vx * dt, y := e.y + vy * dt }).h) ≤
        H - (walls.foldl (fun acc wl => resolveStaticCollision acc wl)
        { e with x := e.x + vx * dt, y := e.y + vy * dt }).h := by
      apply max_le
      · have : (walls.foldl (fun acc wl => resolveStaticCollision acc wl)
            { e with x := e.x + vx * dt, y := e.y + vy * dt }).h = e.h :=
          foldl_resolve_h ..
        rw [this]; linarith
      · exact min_le_left _ _
    simp only [clamp] at h1 ⊢
    simp only [foldl_resolve_h] at h1 ⊢
    linarith

/-- Claim C4: after a call to `moveEntity` (for an entity that fits in the
arena) the entity's bounding box satisfies `0 ≤ x`, `x + w ≤ W`, `0 ≤ y` and
`y + h ≤ H`; hence after any nonempty sequence of motion updates the entity's
rectangle remains inside the arena bounds. -/
theorem moveEntity_bounds (W H : ℚ) (walls : List Rect) (e : Rect) (vx vy dt : ℚ)
    (hw : e.w ≤ W) (hh : e.h ≤ H) (hdt : 0 ≤ dt) :
    inArena W H (moveEntity W H walls e vx vy dt) ∧
    ∀ us : List (ℚ × ℚ × ℚ), us ≠ [] →
      inArena W H (us.foldl (fun a u => moveEntity W H walls a u.1 u.2.1 u.2.2) e) := by
  constructor
  · exact moveEntity_inArena W H walls e vx vy dt hw hh
  · intro us hne
    induction us using List.reverseRecOn generalizing e with
    | nil => exact absurd rfl hne
    | append_singleton ys u ih =>
      rw [List.foldl_append]
      simp only [List.foldl]
      exact moveEntity_inArena W H walls _ u.1 u.2.1 u.2.2
        (by rw [foldl_moveEntity_w]; exact hw) (by rw [foldl_moveEntity_h]; exact hh)

/-- Witness for C4: the player entity moving right for one frame in a
900 × 560 arena with the game's wall list stays inside the arena. -/
theorem moveEntity_bounds_witness :
    inArena 900 560 (moveEntity 900 560 (gameWalls 900 560) ⟨60, 60, 18, 26⟩ 210 0 (1/60)) :=
  (moveEntity_bounds 900 560 (gameWalls 900 560) ⟨60, 60, 18, 26⟩ 210 0 (1/60)
    (by norm_num) (by norm_num) (by norm_num)).1

/-- Claim C8: `resolveStaticCollision` on an already-separated mover/obstacle
pair (touching edges count as separated, since `intersectsAABB` is strict)
leaves the mover unchanged; hence a call after a separating call is a no-op. -/
theorem resolve_separated_noop (m s : Rect) (h : intersectsAABB m s = false) :
    resolveStaticCollision m s = m ∧
    ∀ a b : Rect, intersectsAABB (resolveStaticCollision a b) b = false →
      resolveStaticCollision (resolveStaticCollision a b) b = resolveStaticCollision a b := by
  constructor
  · unfold resolveStaticCollision
    rw [h]
    simp
  · intro a b hab
    conv_lhs => rw [resolveStaticCollision]
    rw [hab]
    simp

/-- Witness for C8: two separated unit squares; the resolver is a no-op. -/
theorem resolve_separated_noop_witness :
    resolveStaticCollision ⟨0, 0, 1, 1⟩ ⟨5, 5, 1, 1⟩ = ⟨0, 0, 1, 1⟩ :=
  (resolve_separated_noop ⟨0, 0, 1, 1⟩ ⟨5, 5, 1, 1⟩ (by norm_num [intersectsAABB])).1

lemma intersectsAABB_eq_true (a b : Rect) :
    intersectsAABB a b = true ↔
      a.x < b.x + b.w ∧ a.x + a.w > b.x ∧ a.y < b.y + b.h ∧ a.y + a.h > b.y := by
  simp [intersectsAABB, and_assoc]

lemma intersectsAABB_eq_false (a b : Rect) :
    intersectsAABB a b = false ↔
      ¬(a.x < b.x + b.w ∧ a.x + a.w > b.x ∧ a.y < b.y + b.h ∧ a.y + a.h > b.y) := by
  rw [← Bool.not_eq_true, intersectsAABB_eq_true]

/-- Claim C9 (amended): on an overlapping pair, `resolveStaticCollision`
translates the mover along exactly one axis by exactly the overlap extent on
that axis; afterwards the rectangles no longer intersect provided that, on the
chosen axis, neither rectangle's projection contains the other's (a mover
whose projection sits inside the obstacle's, or swallows it, can stay
overlapping after the push). -/
theorem resolve_overlap_pushes (m s : Rect) (hi : intersectsAABB m s = true) :
    ((min (m.x + m.w) (s.x + s.w) - max m.x s.x < min (m.y + m.h) (s.y + s.h) - max m.y s.y →
        (resolveStaticCollision m s).y = m.y ∧
        (resolveStaticCollision m s).x =
          (if m.x < s.x then m.x - (min (m.x + m.w) (s.x + s.w) - max m.x s.x)
           else m.x + (min (m.x + m.w) (s.x + s.w) - max m.x s.x))) ∧
      (¬ min (m.x + m.w) (s.x + s.w) - max m.x s.x < min (m.y + m.h) (s.y + s.h) - max m.y s.y →
        (resolveStaticCollision m s).x = m.x ∧
        (resolveStaticCollision m s).y =
          (if m.y < s.y then m.y - (min (m.y + m.h) (s.y + s.h) - max m.y s.y)
           else m.y + (min (m.y + m.h) (s.y + s.h) - max m.y s.y)))) ∧
    ((min (m.x + m.w) (s.x + s.w) - max m.x s.x < min (m.y + m.h) (s.y + s.h) - max m.y s.y →
        (m.x < s.x → m.x + m.w ≤ s.x + s.w) ∧ (s.x ≤ m.x → s.x + s.w ≤ m.x + m.w)) →
      (¬ min (m.x + m.w) (s.x + s.w) - max m.x s.x < min (m.y + m.h) (s.y + s.h) - max m.y s.y →
        (m.y < s.y → m.y + m.h ≤ s.y + s.h) ∧ (s.y ≤ m.y → s.y + s.h ≤ m.y + m.h)) →
      intersectsAABB (resolveStaticCollision m s) s = false) := by
  rw [intersectsAABB_eq_true] at hi
  obtain ⟨h1, h2, h3, h4⟩ := hi
  unfold resolveStaticCollision
  rw [if_pos (by rw [intersectsAABB_eq_true]; exact ⟨h1, h2, h3, h4⟩)]
  dsimp only
  constructor
  · constructor
    · intro hxy
      rw [if_pos hxy]
      split_ifs with hside <;> exact ⟨rfl, rfl⟩
    · intro hxy
      rw [if_neg hxy]
      split_ifs with hside <;> exact ⟨rfl, rfl⟩
  · intro hcx hcy
    split_ifs with hxy hside hside
    · -- push left on x
      obtain ⟨hc, _⟩ := hcx hxy
      rw [intersectsAABB_eq_false]
      dsimp only
      intro ⟨k1, k2, k3, k4⟩
      have hmw : m.x + m.w ≤ s.x + s.w := hc hside
      rw [min_eq_left hmw] at k2
      rcases max_cases m.x s.x with ⟨hm, _⟩ | ⟨hm, hlt⟩ <;> rw [hm] at k2 <;> linarith
    · -- push right on x
      obtain ⟨_, hc⟩ := hcx hxy
      rw [intersectsAABB_eq_false]
      dsimp only
      intro ⟨k1, k2, k3, k4⟩
      have hsx : s.x ≤ m.x := le_of_not_lt hside
      have hsw : s.x + s.w ≤ m.x + m.w := hc hsx
      rw [min_eq_right hsw, max_eq_left hsx] at k1
      linarith
    · -- push up on y
      obtain ⟨hc, _⟩ := hcy hxy
      rw [intersectsAABB_eq_false]
      dsimp only
      intro ⟨k1, k2, k3, k4⟩
      have hmh : m.y + m.h ≤ s.y + s.h := hc hside
      rw [min_eq_left hmh] at k4
      rcases max_cases m.y s.y with ⟨hm, _⟩ | ⟨hm, hlt⟩ <;> rw [hm] at k4 <;> linarith
    · -- push down on y
      obtain ⟨_, hc⟩ := hcy hxy
      rw [intersectsAABB_eq_false]
      dsimp only
      intro ⟨k1, k2, k3, k4⟩
      have hsy : s.y ≤ m.y := le_of_not_lt hside
      have hsh : s.y + s.h ≤ m.y + m.h := hc hsy
      rw [min_eq_right hsh, max_eq_left hsy] at k3
      linarith

/-- Counterexample for C9 as stated: a mover whose horizontal span lies inside
the obstacle's is pushed along x by the overlap extent but still intersects
the obstacle afterwards. -/
theorem resolve_overlap_counterexample :
    intersectsAABB ⟨2, 0, 2, 10⟩ ⟨0, 0, 10, 3⟩ = true ∧
    intersectsAABB (resolveStaticCollision ⟨2, 0, 2, 10⟩ ⟨0, 0, 10, 3⟩) ⟨0, 0, 10, 3⟩ = true := by
  constructor
  · norm_num [intersectsAABB]
  · have h1 : resolveStaticCollision ⟨2, 0, 2, 10⟩ ⟨0, 0, 10, 3⟩ = ⟨4, 0, 2, 10⟩ := by
      unfold resolveStaticCollision
      rw [if_pos (by norm_num [intersectsAABB])]
      norm_num [min_def, max_def]
    rw [h1]
    norm_num [intersectsAABB]

/-- Witness for the amended C9: two overlapping squares with a proper partial
overlap on x; the resolver pushes the mover left by the overlap extent and the
pair is separated afterwards. -/
theorem resolve_overlap_pushes_witness :
    (resolveStaticCollision ⟨0, 0, 4, 4⟩ ⟨2, 0, 4, 4⟩).x = 0 - 2 ∧
    intersectsAABB (resolveStaticCollision ⟨0, 0, 4, 4⟩ ⟨2, 0, 4, 4⟩) ⟨2, 0, 4, 4⟩ = false := by
  have h := resolve_overlap_pushes ⟨0, 0, 4, 4⟩ ⟨2, 0, 4, 4⟩ (by norm_num [intersectsAABB])
  constructor
  · have h2 := (h.1.1 (by norm_num [min_def, max_def])).2
    rw [if_pos (by norm_num)] at h2
    rw [h2]
    norm_num [min_def, max_def]
  · exact h.2 (fun hx => by norm_num) (fun hx => by norm_num [min_def, max_def] at hx)

/-- Accumulated lower clip bound: the running `t0` after folding the lower
bounds `q/p` of the constraints with negative `p`. -/
def lowerB : List (ℚ × ℚ) → ℚ → ℚ
  | [], t0 => t0
  | pq :: rest, t0 =>
    if pq.1 < 0 then lowerB rest (max t0 (pq.2 / pq.1)) else lowerB rest t0

/-- Accumulated upper clip bound: the running `t1` after folding the upper
bounds `q/p` of the constraints with positive `p`. -/
def upperB : List (ℚ × ℚ) → ℚ → ℚ
  | [], t1 => t1
  | pq :: rest, t1 =>
    if 0 < pq.1 then upperB rest (min t1 (pq.2 / pq.1)) else upperB rest t1

/-- Every constraint with a zero direction coefficient has a nonnegative `q`. -/
def zeroOK : List (ℚ × ℚ) → Bool
  | [] => true
  | pq :: rest => (if pq.1 = 0 then decide (0 ≤ pq.2) else true) && zeroOK rest

lemma le_lowerB (l : List (ℚ × ℚ)) (t0 : ℚ) : t0 ≤ lowerB l t0 := by
  induction l generalizing t0 with
  | nil => exact le_refl _
  | cons pq rest ih =>
    unfold lowerB
    split_ifs with hp
    · exact le_trans (le_max_left _ _) (ih _)
    · exact ih _

lemma upperB_le (l : List (ℚ × ℚ)) (t1 : ℚ) : upperB l t1 ≤ t1 := by
  induction l generalizing t1 with
  | nil => exact le_refl _
  | cons pq rest ih =>
    unfold upperB
    split_ifs with hp
    · exact le_trans (ih _) (min_le_left _ _)
    · exact ih _

lemma clipLoop_cons (p q : ℚ) (rest : List (ℚ × ℚ)) (t0 t1 : ℚ) :
    clipLoop ((p, q) :: rest) t0 t1 =
      if p = 0 then (if q < 0 then false else clipLoop rest t0 t1)
      else if p < 0 then (if t1 < q / p then false else clipLoop rest (max t0 (q / p)) t1)
      else (if q / p < t0 then false else clipLoop rest t0 (min t1 (q / p))) := rfl

lemma lowerB_cons (p q : ℚ) (rest : List (ℚ × ℚ)) (t0 : ℚ) :
    lowerB ((p, q) :: rest) t0 =
      if p < 0 then lowerB rest (max t0 (q / p)) else lowerB rest t0 := rfl

lemma upperB_cons (p q : ℚ) (rest : List (ℚ × ℚ)) (t1 : ℚ) :
    upperB ((p, q) :: rest) t1 =
      if 0 < p then upperB rest (min t1 (q / p)) else upperB rest t1 := rfl

lemma zeroOK_cons (p q : ℚ) (rest : List (ℚ × ℚ)) :
    zeroOK ((p, q) :: rest) = ((if p = 0 then decide (0 ≤ q) else true) && zeroOK rest) := rfl

/-- The clipping loop returns true exactly when no zero-coefficient constraint
is already violated and the final clipped interval is nonempty. -/
lemma clipLoop_characterization (l : List (ℚ × ℚ)) (t0 t1 : ℚ) (h : t0 ≤ t1) :
    clipLoop l t0 t1 = (zeroOK l && decide (lowerB l t0 ≤ upperB l t1)) := by
  induction l generalizing t0 t1 with
  | nil =>
    simp [clipLoop, zeroOK, lowerB, upperB, h]
  | cons pq rest ih =>
    rcases pq with ⟨p, q⟩
    rw [clipLoop_cons, lowerB_cons, upperB_cons, zeroOK_cons]
    rcases lt_trichotomy p 0 with hneg | hzero | hpos
    · rw [if_neg (ne_of_lt hneg), if_pos hneg, if_pos hneg,
        if_neg (not_lt.mpr (le_of_lt hneg)), if_neg (ne_of_lt hneg)]
      split_ifs with ht
      · have hlb : t1 < lowerB rest (max t0 (q / p)) :=
          lt_of_lt_of_le ht (le_trans (le_max_right _ _) (le_lowerB _ _))
        have hub : upperB rest t1 ≤ t1 := upperB_le _ _
        rw [decide_eq_false (by linarith)]
        simp
      · exact ih _ _ (max_le h (not_lt.mp ht))
    · subst hzero
      rw [if_pos rfl, if_neg (lt_irrefl _), if_neg (lt_irrefl _), if_pos rfl]
      split_ifs with hq
      · rw [decide_eq_false (not_le.mpr hq)]
        simp
      · rw [decide_eq_true (not_lt.mp hq)]
        simp only [Bool.true_and]
        exact ih _ _ h
    · rw [if_neg (ne_of_gt hpos), if_neg (not_lt.mpr (le_of_lt hpos)),
        if_neg (not_lt.mpr (le_of_lt hpos)), if_pos hpos, if_neg (ne_of_gt hpos)]
      split_ifs with ht
      · have hlb : t0 ≤ lowerB rest t0 := le_lowerB _ _
        have hub : upperB rest (min t1 (q / p)) ≤ q / p :=
          le_trans (upperB_le _ _) (min_le_right _ _)
        rw [decide_eq_false (by linarith)]
        simp
      · exact ih _ _ (le_min h (not_lt.mp ht))

/-- Swapping a segment's endpoints turns each Liang-Barsky constraint
`(p, q)` into `(-p, q - p)`. -/
def reflectPQ (pq : ℚ × ℚ) : ℚ × ℚ := (-pq.1, pq.2 - pq.1)

lemma zeroOK_reflect (l : List (ℚ × ℚ)) : zeroOK (l.map reflectPQ) = zeroOK l := by
  induction l with
  | nil => rfl
  | cons pq rest ih =>
    rcases pq with ⟨p, q⟩
    rw [List.map_cons, show reflectPQ (p, q) = (-p, q - p) from rfl, zeroOK_cons, zeroOK_cons, ih]
    rcases eq_or_ne p 0 with hz | hz
    · subst hz
      rw [if_pos (neg_zero), if_pos rfl, sub_zero]
    · rw [if_neg (neg_ne_zero.mpr hz), if_neg hz]

lemma one_sub_max (a b : ℚ) : 1 - max a b = min (1 - a) (1 - b) := by
  rcases le_total a b with hab | hab
  · rw [max_eq_right hab, min_eq_right (by linarith)]
  · rw [max_eq_left hab, min_eq_left (by linarith)]

lemma one_sub_min (a b : ℚ) : 1 - min a b = max (1 - a) (1 - b) := by
  rcases le_total a b with hab | hab
  · rw [min_eq_left hab, max_eq_left (by linarith)]
  · rw [min_eq_right hab, max_eq_right (by linarith)]

lemma reflect_bound (p q : ℚ) (hp : p ≠ 0) : (q - p) / (-p) = 1 - q / p := by
  rw [div_neg, sub_div, div_self hp]
  ring

lemma lowerB_reflect (l : List (ℚ × ℚ)) (t : ℚ) :
    lowerB (l.map reflectPQ) t = 1 - upperB l (1 - t) := by
  induction l generalizing t with
  | nil => simp [lowerB, upperB]
  | cons pq rest ih =>
    rcases pq with ⟨p, q⟩
    rw [List.map_cons, show reflectPQ (p, q) = (-p, q - p) from rfl, lowerB_cons, upperB_cons]
    rcases lt_trichotomy p 0 with hneg | hzero | hpos
    · rw [if_neg (show ¬ -p < 0 by rw [not_lt]; linarith),
        if_neg (not_lt.mpr (le_of_lt hneg)), ih]
    · subst hzero
      rw [if_neg (show ¬ -(0:ℚ) < 0 by rw [neg_zero]; exact lt_irrefl _),
        if_neg (lt_irrefl _), ih]
    · rw [if_pos (show -p < 0 by linarith), if_pos hpos,
        reflect_bound p q (ne_of_gt hpos), ih]
      have harg : 1 - max t (1 - q / p) = min (1 - t) (q / p) := by
        rw [one_sub_max]
        congr 1
        ring
      rw [harg]

lemma upperB_reflect (l : List (ℚ × ℚ)) (t : ℚ) :
    upperB (l.map reflectPQ) t = 1 - lowerB l (1 - t) := by
  induction l generalizing t with
  | nil => simp [lowerB, upperB]
  | cons pq rest ih =>
    rcases pq with ⟨p, q⟩
    rw [List.map_cons, show reflectPQ (p, q) = (-p, q - p) from rfl, upperB_cons, lowerB_cons]
    rcases lt_trichotomy p 0 with hneg | hzero | hpos
    · rw [if_pos (show (0:ℚ) < -p by linarith), if_pos hneg,
        reflect_bound p q (ne_of_lt hneg), ih]
      have harg : 1 - min t (1 - q / p) = max (1 - t) (q / p) := by
        rw [one_sub_min]
        congr 1
        ring
      rw [harg]
    · subst hzero
      rw [if_neg (show ¬ (0:ℚ) < -0 by rw [neg_zero]; exact lt_irrefl _),
        if_neg (lt_irrefl _), ih]
    · rw [if_neg (show ¬ (0:ℚ) < -p by rw [not_lt]; linarith),
        if_neg (not_lt.mpr (le_of_lt hpos)), ih]

lemma lbList_swap (x1 y1 x2 y2 : ℚ) (r : Rect) :
    lbList x2 y2 x1 y1 r = (lbList x1 y1 x2 y2 r).map reflectPQ := by
  simp only [lbList, reflectPQ, List.map_cons, List.map_nil, List.cons.injEq,
    Prod.mk.injEq, and_true]
  refine ⟨⟨by ring, by ring⟩, ⟨by ring, by ring⟩, ⟨by ring, by ring⟩, by ring, by ring⟩

lemma segmentIntersectsRect_symm (x1 y1 x2 y2 : ℚ) (r : Rect) :
    segmentIntersectsRect x1 y1 x2 y2 r = segmentIntersectsRect x2 y2 x1 y1 r := by
  unfold segmentIntersectsRect
  rw [lbList_swap x1 y1 x2 y2 r,
    clipLoop_characterization (lbList x1 y1 x2 y2 r) 0 1 (by norm_num),
    clipLoop_characterization ((lbList x1 y1 x2 y2 r).map reflectPQ) 0 1 (by norm_num),
    zeroOK_reflect, lowerB_reflect, upperB_reflect, sub_zero, sub_self,
    show (decide (1 - upperB (lbList x1 y1 x2 y2 r) 1 ≤ 1 - lowerB (lbList x1 y1 x2 y2 r) 0)) =
        (decide (lowerB (lbList x1 y1 x2 y2 r) 0 ≤ upperB (lbList x1 y1 x2 y2 r) 1)) from
      decide_eq_decide.mpr (sub_le_sub_iff_left 1)]
  cases pointInRect x1 y1 r <;> cases pointInRect x2 y2 r <;> simp

/-- Claim C3: line-of-sight is symmetric — for any two points and any wall
set, `hasLineOfSight(a, b) = hasLineOfSight(b, a)`. -/
theorem hasLineOfSight_symm (walls : List Rect) (ax ay bx byv : ℚ) :
    hasLineOfSight walls ax ay bx byv = hasLineOfSight walls bx byv ax ay := by
  unfold hasLineOfSight
  induction walls with
  | nil => rfl
  | cons w rest ih =>
    simp only [List.all_cons, ih, segmentIntersectsRect_symm]

/-- Claim C7: degenerate-input totality. A zero-length segment makes every
direction coefficient `p[i]` zero, so the clipping loop performs no division
and rejects exactly when the point is outside some half-plane; the call
reduces to the point-in-rectangle test. And `norm(0, 0)` (whose
`Math.hypot(0, 0)` is exactly `0`) falls back to the divisor `1` and returns
the zero vector, so a zero-speed movement vector yields no displacement. -/
theorem degenerate_geometry_total :
    (∀ (x y : ℚ) (r : Rect), segmentIntersectsRect x y x y r = pointInRect x y r) ∧
    normWith 0 0 0 = (0, 0) := by
  constructor
  · intro x y r
    have hclip : clipLoop (lbList x y x y r) 0 1 = pointInRect x y r := by
      unfold lbList
      simp only [sub_self, neg_zero]
      rw [clipLoop_cons, if_pos rfl, clipLoop_cons, if_pos rfl,
        clipLoop_cons, if_pos rfl, clipLoop_cons, if_pos rfl]
      unfold pointInRect
      split_ifs with h1 h2 h3 h4 <;> symm
      · simp only [Bool.and_eq_false_iff]
        left; left; left
        rw [decide_eq_false]
        intro hge
        rw [ge_iff_le, ← sub_nonneg] at hge
        exact absurd h1 (not_lt.mpr hge)
      · simp only [Bool.and_eq_false_iff]
        left; left; right
        rw [decide_eq_false]
        intro hle
        rw [← sub_nonneg] at hle
        exact absurd h2 (not_lt.mpr hle)
      · simp only [Bool.and_eq_false_iff]
        left; right
        rw [decide_eq_false]
        intro hge
        rw [ge_iff_le, ← sub_nonneg] at hge
        exact absurd h3 (not_lt.mpr hge)
      · simp only [Bool.and_eq_false_iff]
        right
        rw [decide_eq_false]
        intro hle
        rw [← sub_nonneg] at hle
        exact absurd h4 (not_lt.mpr hle)
      · unfold clipLoop
        simp only [Bool.and_eq_true, decide_eq_true_eq]
        refine ⟨⟨⟨?_, ?_⟩, ?_⟩, ?_⟩
        · rw [ge_iff_le, ← sub_nonneg]
          exact not_lt.mp h1
        · rw [← sub_nonneg]
          have := not_lt.mp h2
          linarith
        · rw [ge_iff_le, ← sub_nonneg]
          exact not_lt.mp h3
        · rw [← sub_nonneg]
          have := not_lt.mp h4
          linarith
    unfold segmentIntersectsRect
    rw [hclip]
    cases pointInRect x y r <;> simp
  · unfold normWith
    rw [if_pos rfl]
    norm_num

/-- The `player.shield` record of the source. -/
structure Shield where
  active : Bool
  durability : ℚ
  max : ℚ
  hitCost : ℚ
  regenPerSec : ℚ
  brokenUntil : ℚ
  breakCooldownMs : ℚ
deriving DecidableEq

/-- The `player` record of the source (rendering-only fields omitted). -/
structure PlayerSt where
  x : ℚ
  y : ℚ
  w : ℚ
  h : ℚ
  speed : ℚ
  sprintMult : ℚ
  stamina : ℚ
  staminaMax : ℚ
  staminaDrainPerSec : ℚ
  staminaRegenPerSec : ℚ
  shield : Shield
deriving DecidableEq

/-- The player's bounding rectangle, as built by `rect(player.x, player.y, player.w, player.h)`. -/
def PlayerSt.rect (p : PlayerSt) : Rect := ⟨p.x, p.y, p.w, p.h⟩

/-- Source `shieldIsUp(now)`: active, not inside the post-break cooldown window, and
durability strictly positive. -/
def shieldIsUp (s : Shield) (now : ℚ) : Bool :=
  if !s.active then false
  else if now < s.brokenUntil then false
  else decide (s.durability > 0)

/-- The stamina drain/regen statement of `updatePlayer` (the two `clamp`
assignments guarded by `moving && canSprint`). -/
def staminaStep (sprinting : Bool) (dt : ℚ) (p : PlayerSt) : PlayerSt :=
  if sprinting then
    { p with stamina := clamp (p.stamina - p.staminaDrainPerSec * dt) 0 p.staminaMax }
  else
    { p with stamina := clamp (p.stamina + p.staminaRegenPerSec * dt) 0 p.staminaMax }

/-- The shield regeneration statement of `updatePlayer`: durability regrows
only when `now >= brokenUntil` and the shield is not up. -/
def shieldRegenStep (dt now : ℚ) (p : PlayerSt) : PlayerSt :=
  if decide (now ≥ p.shield.brokenUntil) && ! shieldIsUp p.shield now then
    { p with shield := { p.shield with
        durability := clamp (p.shield.durability + p.shield.regenPerSec * dt) 0 p.shield.max } }
  else p

/-- Source `updatePlayer(dt, now)`.  Key flags replace the DOM `keys` set (`leftK`
stands for `arrowleft || a`, and so on); the `Math.hypot`-based normalization
of the input direction is irrational in general and is supplied as `normFn`
(it only scales the movement vector and never touches stamina or shield). -/
def updatePlayer (W H : ℚ) (walls : List Rect) (normFn : ℚ → ℚ → ℚ × ℚ)
    (space shift leftK rightK upK downK : Bool) (dt now : ℚ) (p : PlayerSt) : PlayerSt :=
  let p1 := { p with shield := { p.shield with active := space } }
  let wantsSprint := shift
  let canSprint := wantsSprint && decide (p1.stamina > 1)
  let dx : ℚ := (cond leftK (-1) 0) + (cond rightK 1 0)
  let dy : ℚ := (cond upK (-1) 0) + (cond downK 1 0)
  let moving := !(decide (dx = 0) && decide (dy = 0))
  let speed := if moving && canSprint then p1.speed * p1.sprintMult else p1.speed
  let p2 := staminaStep (moving && canSprint) dt p1
  let p3 := shieldRegenStep dt now p2
  if moving then
    let n := normFn dx dy
    let r := moveEntity W H walls p3.rect (n.1 * speed) (n.2 * speed) dt
    { p3 with x := r.x, y := r.y }
  else p3

lemma staminaStep_shield (b : Bool) (dt : ℚ) (p : PlayerSt) :
    (staminaStep b dt p).shield = p.shield := by
  unfold staminaStep
  split_ifs <;> rfl

lemma shieldRegenStep_durability (dt now : ℚ) (p : PlayerSt)
    (hcond : (decide (now ≥ p.shield.brokenUntil) && ! shieldIsUp p.shield now) = false) :
    (shieldRegenStep dt now p).shield.durability = p.shield.durability := by
  unfold shieldRegenStep
  rw [hcond]
  rfl

/-- Claim C10: `updatePlayer` regenerates shield durability only when the
current time is at or past `brokenUntil` and the shield is not up; while the
shield is up, or while the post-break cooldown is active, durability is left
unchanged — in particular it stays at `0` for the whole cooldown window. -/
theorem updatePlayer_regen_gated (W H : ℚ) (walls : List Rect) (normFn : ℚ → ℚ → ℚ × ℚ)
    (space shift leftK rightK upK downK : Bool) (dt now : ℚ) (p : PlayerSt)
    (h : now < p.shield.brokenUntil ∨
      shieldIsUp { p.shield with active := space } now = true) :
    (updatePlayer W H walls normFn space shift leftK rightK upK downK dt now p).shield.durability
      = p.shield.durability ∧
    (p.shield.durability = 0 → now < p.shield.brokenUntil →
      (updatePlayer W H walls normFn space shift leftK rightK upK downK dt now p).shield.durability
        = 0) := by
  have key :
      (updatePlayer W H walls normFn space shift leftK rightK upK downK dt now p).shield.durability
        = p.shield.durability := by
    dsimp only at h
    have hfor : ∀ (b : Bool),
        (shieldRegenStep dt now (staminaStep b dt
          { p with shield := { p.shield with active := space } })).shield.durability
          = p.shield.durability := by
      intro b
      have hsh : (staminaStep b dt
          { p with shield := { p.shield with active := space } }).shield
          = { p.shield with active := space } := staminaStep_shield ..
      have hcond : (decide (now ≥ (staminaStep b dt
            { p with shield := { p.shield with active := space } }).shield.brokenUntil) &&
          ! shieldIsUp (staminaStep b dt
            { p with shield := { p.shield with active := space } }).shield now) = false := by
        rw [hsh]
        dsimp only
        rcases h with hlt | hup
        · rw [decide_eq_false (not_le.mpr hlt)]
          rfl
        · rw [hup]
          simp
      rw [shieldRegenStep_durability _ _ _ hcond, hsh]
    unfold updatePlayer
    dsimp only
    split_ifs <;> exact hfor _
  exact ⟨key, fun h0 _ => by rw [key, h0]⟩

/-- Witness for C10: a player whose shield broke until `t = 5` gains no
durability from an `updatePlayer` tick at `t = 1`; durability stays `0`. -/
theorem updatePlayer_regen_gated_witness :
    (updatePlayer 900 560 [] (fun x y => (x, y)) false false false false false false
      (1/60) 1
      ⟨60, 60, 18, 26, 210, 165/100, 100, 100, 38, 22,
        ⟨false, 0, 100, 26, 14, 5, 2400⟩⟩).shield.durability = 0 :=
  (updatePlayer_regen_gated 900 560 [] (fun x y => (x, y)) false false false false false false
    (1/60) 1 ⟨60, 60, 18, 26, 210, 165/100, 100, 100, 38, 22, ⟨false, 0, 100, 26, 14, 5, 2400⟩⟩
    (Or.inl (by norm_num))).2 rfl (by norm_num)

/-- One flame particle: position, velocity, radius, birth time, time-to-live. -/
structure Flame where
  x : ℚ
  y : ℚ
  vx : ℚ
  vy : ℚ
  r : ℚ
  bornAt : ℚ
  ttlMs : ℚ
deriving DecidableEq

/-- The game state touched by `updateFlames`, `updateMonster`'s contact check
and the `tick` win check: the `state` string is `"running" | "won" | "lost"`
and `statusText` is the `statusEl.textContent` cause message. -/
structure Game where
  player : PlayerSt
  monster : Rect
  flames : List Flame
  state : String
  statusText : String

/-- One iteration of the `updateFlames` loop body for a single particle:
integrate position, then drop it on TTL expiry, on wall contact, or on a
player hit (shield absorption or a burn loss); otherwise keep it.  Returns the
updated game state and the surviving particle, if any. -/
def flameStep (walls : List Rect) (dt now : ℚ) (f : Flame) (g : Game) : Game × Option Flame :=
  let f1 := { f with x := f.x + f.vx * dt, y := f.y + f.vy * dt }
  if now - f1.bornAt > f1.ttlMs then (g, none)
  else
    let fr : Rect := ⟨f1.x - f1.r, f1.y - f1.r, f1.r * 2, f1.r * 2⟩
    if walls.any (fun w => intersectsAABB fr w) then (g, none)
    else
      let pr := g.player.rect
      if pointInRect f1.x f1.y pr || intersectsAABB fr pr then
        if shieldIsUp g.player.shield now then
          let d1 := clamp (g.player.shield.durability - g.player.shield.hitCost) 0
            g.player.shield.max
          let bu1 := if d1 ≤ 1/1000 then now + g.player.shield.breakCooldownMs
            else g.player.shield.brokenUntil
          ({ g with player := { g.player with shield :=
              { g.player.shield with durability := d1, brokenUntil := bu1 } } }, none)
        else
          ({ g with state := "lost", statusText := "burned (press R)" }, none)
      else (g, some f1)

/-- The `updateFlames(dt, now)` loop iterates the particle array from the last
index down to index `0`, splicing out finished particles; surviving particles
keep their relative order.  `runFlames` mirrors that: the tail (higher
indices) is processed before the head. -/
def runFlames (walls : List Rect) (dt now : ℚ) : List Flame → Game → Game × List Flame
  | [], g => (g, [])
  | f :: rest, g =>
    let tailRes := runFlames walls dt now rest g
    let stepRes := flameStep walls dt now f tailRes.1
    (stepRes.1, match stepRes.2 with
      | some f1 => f1 :: tailRes.2
      | none => tailRes.2)

/-- Source `updateFlames(dt, now)`: process every live particle and store the
survivors. -/
def updateFlames (walls : List Rect) (dt now : ℚ) (g : Game) : Game :=
  let res := runFlames walls dt now g.flames g
  { res.1 with flames := res.2 }

/-- The terminal contact check at the end of `updateMonster`: touching the
monster loses the round regardless of behavior state. -/
def contactCheck (g : Game) : Game :=
  if intersectsAABB g.player.rect g.monster then
    { g with state := "lost", statusText := "mauled (press R)" }
  else g

/-- Source `GOAL_SECONDS` of the source. -/
def GOAL_SECONDS : ℚ := 30

/-- The survival check at the end of `tick`: it runs after the update calls
and overwrites the state with `won` once the elapsed time reaches
`GOAL_SECONDS`. -/
def winCheck (elapsed : ℚ) (g : Game) : Game :=
  if elapsed ≥ GOAL_SECONDS then { g with state := "won", statusText := "won (press R)" }
  else g

/-- The state-relevant tail of one `tick` while `state === 'running'`:
`updateMonster` ends with the contact check, then `updateFlames` runs, then
the win check.  The entity motion earlier in the tick only determines the
positions already stored in `g`, so it is represented by quantifying over the
incoming state. -/
def tickOutcome (walls : List Rect) (dt now elapsed : ℚ) (g : Game) : Game :=
  winCheck elapsed (updateFlames walls dt now (contactCheck g))

/-- A flame particle that, this tick, expires, extinguishes on a wall, or
misses the player rectangle (after its position integration). -/
def flameMisses (walls : List Rect) (dt now : ℚ) (pr : Rect) (f : Flame) : Prop :=
  let f1 := { f with x := f.x + f.vx * dt, y := f.y + f.vy * dt }
  let fr : Rect := ⟨f1.x - f1.r, f1.y - f1.r, f1.r * 2, f1.r * 2⟩
  now - f1.bornAt > f1.ttlMs ∨
    walls.any (fun w => intersectsAABB fr w) = true ∨
    (pointInRect f1.x f1.y pr || intersectsAABB fr pr) = false

lemma flameStep_fst_of_miss (walls : List Rect) (dt now : ℚ) (f : Flame) (g : Game)
    (hm : flameMisses walls dt now g.player.rect f) :
    (flameStep walls dt now f g).1 = g := by
  unfold flameMisses at hm
  unfold flameStep
  dsimp only at hm ⊢
  by_cases h1 : now - f.bornAt > f.ttlMs
  · rw [if_pos h1]
  · rw [if_neg h1]
    by_cases h2 : walls.any (fun w => intersectsAABB
        ⟨f.x + f.vx * dt - f.r, f.y + f.vy * dt - f.r, f.r * 2, f.r * 2⟩ w) = true
    · rw [if_pos h2]
    · rw [if_neg h2]
      rcases hm with hm | hm | hm
      · exact absurd hm h1
      · exact absurd hm h2
      · rw [if_neg (by rw [hm]; exact Bool.false_ne_true)]

lemma runFlames_fst_of_misses (walls : List Rect) (dt now : ℚ) (fs : List Flame) (g : Game)
    (hm : ∀ f ∈ fs, flameMisses walls dt now g.player.rect f) :
    (runFlames walls dt now fs g).1 = g := by
  induction fs with
  | nil => rfl
  | cons f rest ih =>
    unfold runFlames
    dsimp only
    rw [ih (fun f2 hf2 => hm f2 (List.mem_cons_of_mem _ hf2))]
    exact flameStep_fst_of_miss walls dt now f g (hm f (List.mem_cons_self _ _))

lemma contactCheck_player (g : Game) : (contactCheck g).player = g.player := by
  unfold contactCheck
  split_ifs <;> rfl

lemma contactCheck_flames (g : Game) : (contactCheck g).flames = g.flames := by
  unfold contactCheck
  split_ifs <;> rfl

/-- Claim C5 (amended): on a tick in which the player and monster rectangles
overlap, the state after the tick is `lost` with cause `mauled`, provided the
elapsed time is still below `GOAL_SECONDS` (otherwise the win check that runs
after the updates overwrites the state with `won`) and no flame particle
strikes the player this tick (a same-tick burn would overwrite the cause
text). -/
theorem contact_is_immediate_loss (walls : List Rect) (dt now elapsed : ℚ) (g : Game)
    (hover : intersectsAABB g.player.rect g.monster = true)
    (helapsed : elapsed < GOAL_SECONDS)
    (hflames : ∀ f ∈ g.flames, flameMisses walls dt now g.player.rect f) :
    (tickOutcome walls dt now elapsed g).state = "lost" ∧
    (tickOutcome walls dt now elapsed g).statusText = "mauled (press R)" := by
  unfold tickOutcome
  have hcc : contactCheck g = { g with state := "lost", statusText := "mauled (press R)" } := by
    unfold contactCheck
    rw [if_pos hover]
  have hrun : (runFlames walls dt now (contactCheck g).flames (contactCheck g)).1
      = contactCheck g := by
    apply runFlames_fst_of_misses
    rw [contactCheck_flames, contactCheck_player]
    exact hflames
  have huf : ∀ (s : String), (updateFlames walls dt now (contactCheck g)).state
      = (contactCheck g).state := by
    intro _
    unfold updateFlames
    dsimp only
    rw [hrun]
  unfold winCheck
  rw [if_neg (not_le.mpr helapsed)]
  unfold updateFlames
  dsimp only
  rw [hrun, hcc]
  exact ⟨rfl, rfl⟩

/-- Counterexample for C5 as stated: on the tick where the elapsed time
reaches `GOAL_SECONDS`, the win check runs after the contact check, so a
player overlapped by the monster on that tick ends the tick with state `won`,
not `lost`. -/
theorem contact_is_immediate_loss_counterexample :
    intersectsAABB
      (Game.player ⟨⟨0, 0, 10, 10, 210, 165/100, 100, 100, 38, 22,
        ⟨false, 100, 100, 26, 14, 0, 2400⟩⟩, ⟨5, 5, 10, 10⟩, [], "running", "running"⟩).rect
      (Game.monster ⟨⟨0, 0, 10, 10, 210, 165/100, 100, 100, 38, 22,
        ⟨false, 100, 100, 26, 14, 0, 2400⟩⟩, ⟨5, 5, 10, 10⟩, [], "running", "running"⟩) = true ∧
    (tickOutcome [] 0 0 30
      ⟨⟨0, 0, 10, 10, 210, 165/100, 100, 100, 38, 22,
        ⟨false, 100, 100, 26, 14, 0, 2400⟩⟩, ⟨5, 5, 10, 10⟩, [], "running", "running"⟩).state
      = "won" := by
  constructor
  · norm_num [intersectsAABB, PlayerSt.rect]
  · unfold tickOutcome winCheck
    rw [if_pos (show (GOAL_SECONDS : ℚ) ≤ 30 from by norm_num [GOAL_SECONDS])]

/-- Witness for the amended C5: the same overlapping pair one tick earlier
(elapsed `0 < 30`, no flames) ends the tick mauled. -/
theorem contact_is_immediate_loss_witness :
    (tickOutcome [] 0 0 0
      ⟨⟨0, 0, 10, 10, 210, 165/100, 100, 100, 38, 22,
        ⟨false, 100, 100, 26, 14, 0, 2400⟩⟩, ⟨5, 5, 10, 10⟩, [], "running", "running"⟩).state
      = "lost" :=
  (contact_is_immediate_loss [] 0 0 0
    ⟨⟨0, 0, 10, 10, 210, 165/100, 100, 100, 38, 22,
      ⟨false, 100, 100, 26, 14, 0, 2400⟩⟩, ⟨5, 5, 10, 10⟩, [], "running", "running"⟩
    (by norm_num [intersectsAABB, PlayerSt.rect])
    (by norm_num [GOAL_SECONDS])
    (by intro f hf; exact absurd hf (List.not_mem_nil f))).1

/-- A flame particle that, this tick, is still alive, touches no wall, and
hits the player rectangle (after its position integration). -/
def flameHits (walls : List Rect) (dt now : ℚ) (pr : Rect) (f : Flame) : Prop :=
  let f1 := { f with x := f.x + f.vx * dt, y := f.y + f.vy * dt }
  let fr : Rect := ⟨f1.x - f1.r, f1.y - f1.r, f1.r * 2, f1.r * 2⟩
  ¬ (now - f1.bornAt > f1.ttlMs) ∧
    walls.any (fun w => intersectsAABB fr w) = false ∧
    (pointInRect f1.x f1.y pr || intersectsAABB fr pr) = true

lemma shieldIsUp_eq_true (s : Shield) (now : ℚ) :
    shieldIsUp s now = true ↔ (s.active = true ∧ ¬ now < s.brokenUntil ∧ 0 < s.durability) := by
  unfold shieldIsUp
  split_ifs with h1 h2 <;> simp_all [Bool.not_eq_true']

lemma flameStep_hit (walls : List Rect) (dt now : ℚ) (f : Flame) (g : Game) (d1 b1 : ℚ)
    (hh : flameHits walls dt now g.player.rect f)
    (hup : shieldIsUp { g.player.shield with durability := d1, brokenUntil := b1 } now = true) :
    flameStep walls dt now f
      { g with player := { g.player with shield :=
          { g.player.shield with durability := d1, brokenUntil := b1 } } } =
    ({ g with player := { g.player with shield := { g.player.shield with
        durability := clamp (d1 - g.player.shield.hitCost) 0 g.player.shield.max,
        brokenUntil :=
          if clamp (d1 - g.player.shield.hitCost) 0 g.player.shield.max ≤ 1/1000
          then now + g.player.shield.breakCooldownMs else b1 } } }, none) := by
  unfold flameHits PlayerSt.rect at hh
  dsimp only at hh
  obtain ⟨h1, h2, h3⟩ := hh
  unfold flameStep PlayerSt.rect
  dsimp only
  rw [if_neg h1, if_neg (by rw [h2]; exact Bool.false_ne_true), if_pos h3, if_pos hup]

lemma runFlames_all_hits (walls : List Rect) (dt now : ℚ) (fs : List Flame) (g : Game)
    (hact : g.player.shield.active = true)
    (hbu : g.player.shield.brokenUntil ≤ now)
    (hd0 : 0 < g.player.shield.durability)
    (hdmax : g.player.shield.durability ≤ g.player.shield.max)
    (hhc : 0 < g.player.shield.hitCost)
    (hall : ∀ f ∈ fs, flameHits walls dt now g.player.rect f)
    (hmid : ∀ k : ℕ, 0 < k → k < fs.length →
      1/1000 < g.player.shield.durability - (k : ℚ) * g.player.shield.hitCost) :
    runFlames walls dt now fs g =
      ({ g with player := { g.player with shield := { g.player.shield with
          durability := max 0 (g.player.shield.durability
            - (fs.length : ℚ) * g.player.shield.hitCost),
          brokenUntil :=
            if 0 < fs.length ∧ g.player.shield.durability
                - (fs.length : ℚ) * g.player.shield.hitCost ≤ 1/1000
            then now + g.player.shield.breakCooldownMs
            else g.player.shield.brokenUntil } } }, []) := by
  induction fs with
  | nil =>
    simp only [List.length_nil, Nat.cast_zero, zero_mul, sub_zero, lt_self_iff_false,
      false_and, if_false]
    rw [max_eq_right (le_of_lt hd0)]
    rfl
  | cons f rest ih =>
    have hall2 : ∀ f2 ∈ rest, flameHits walls dt now g.player.rect f2 :=
      fun f2 hf2 => hall f2 (List.mem_cons_of_mem _ hf2)
    have hmid2 : ∀ k : ℕ, 0 < k → k < rest.length →
        1/1000 < g.player.shield.durability - (k : ℚ) * g.player.shield.hitCost :=
      fun k hk1 hk2 => hmid k hk1 (by rw [List.length_cons]; omega)
    have ihr := ih hall2 hmid2
    have hcast : (0 : ℚ) ≤ (rest.length : ℚ) := Nat.cast_nonneg _
    have hdm : 0 < g.player.shield.durability
        - (rest.length : ℚ) * g.player.shield.hitCost := by
      rcases Nat.eq_zero_or_pos rest.length with hz | hpos
      · rw [hz]
        simpa using hd0
      · have := hmid rest.length hpos (by rw [List.length_cons]; omega)
        linarith [show (0:ℚ) < 1/1000 by norm_num]
    have hmax : max 0 (g.player.shield.durability
        - (rest.length : ℚ) * g.player.shield.hitCost)
        = g.player.shield.durability - (rest.length : ℚ) * g.player.shield.hitCost :=
      max_eq_right (le_of_lt hdm)
    have hif : (if 0 < rest.length ∧ g.player.shield.durability
          - (rest.length : ℚ) * g.player.shield.hitCost ≤ 1/1000
        then now + g.player.shield.breakCooldownMs
        else g.player.shield.brokenUntil) = g.player.shield.brokenUntil := by
      rw [if_neg]
      rintro ⟨hpos, hle⟩
      have := hmid rest.length hpos (by rw [List.length_cons]; omega)
      linarith
    unfold runFlames
    dsimp only
    rw [ihr]
    dsimp only
    rw [hmax, hif]
    have hup : shieldIsUp { g.player.shield with
        durability := g.player.shield.durability
          - (rest.length : ℚ) * g.player.shield.hitCost,
        brokenUntil := g.player.shield.brokenUntil } now = true := by
      rw [shieldIsUp_eq_true]
      exact ⟨hact, not_lt.mpr hbu, hdm⟩
    rw [flameStep_hit walls dt now f g _ _ (hall f (List.mem_cons_self _ _)) hup]
    have harith : clamp (g.player.shield.durability
        - (rest.length : ℚ) * g.player.shield.hitCost - g.player.shield.hitCost) 0
        g.player.shield.max
        = max 0 (g.player.shield.durability
          - ((f :: rest).length : ℚ) * g.player.shield.hitCost) := by
      unfold clamp
      rw [List.length_cons]
      push_cast
      rw [min_eq_right (by nlinarith)]
      ring_nf
    rw [harith]
    have hiff : (max 0 (g.player.shield.durability
          - ((f :: rest).length : ℚ) * g.player.shield.hitCost) ≤ 1/1000)
        ↔ (0 < (f :: rest).length ∧ g.player.shield.durability
          - ((f :: rest).length : ℚ) * g.player.shield.hitCost ≤ 1/1000) := by
      rw [max_le_iff]
      constructor
      · rintro ⟨_, hle⟩
        exact ⟨by rw [List.length_cons]; omega, hle⟩
      · rintro ⟨_, hle⟩
        exact ⟨by norm_num, hle⟩
    rw [if_congr hiff rfl rfl]

/-- Claim C2: if every one of the `N` flame hits lands on a raised shield
(active, past `brokenUntil`, durability positive before the hit — the
hypothesis `hmid` states exactly that the break threshold `0.001` is not
crossed before the last hit, which the raised-shield precondition forces),
then afterwards the durability is `max 0 (d0 - N*hitCost)` (automatically
inside `[0, max]`), and a shield whose `brokenUntil` lies in the future
reports `shieldIsUp = false` at every earlier instant, so it cannot be
re-raised until `brokenUntil` has elapsed. -/
theorem shield_durability_after_hits (walls : List Rect) (dt now : ℚ) (g : Game)
    (hact : g.player.shield.active = true)
    (hbu : g.player.shield.brokenUntil ≤ now)
    (hd0 : 0 < g.player.shield.durability)
    (hdmax : g.player.shield.durability ≤ g.player.shield.max)
    (hhc : 0 < g.player.shield.hitCost)
    (hall : ∀ f ∈ g.flames, flameHits walls dt now g.player.rect f)
    (hmid : ∀ k : ℕ, 0 < k → k < g.flames.length →
      1/1000 < g.player.shield.durability - (k : ℚ) * g.player.shield.hitCost) :
    (updateFlames walls dt now g).player.shield.durability
      = max 0 (g.player.shield.durability
        - (g.flames.length : ℚ) * g.player.shield.hitCost) ∧
    ∀ (s : Shield) (t : ℚ), t < s.brokenUntil → shieldIsUp s t = false := by
  constructor
  · unfold updateFlames
    dsimp only
    rw [runFlames_all_hits walls dt now g.flames g hact hbu hd0 hdmax hhc hall hmid]
  · intro s t ht
    unfold shieldIsUp
    by_cases h1 : (! s.active) = true
    · rw [if_pos h1]
    · rw [if_neg h1, if_pos ht]

/-- Witness for C2: two stationary flames sitting on the player while the
shield is raised at full durability; after the pass the durability is
`100 - 2*26 = 48`. -/
theorem shield_durability_after_hits_witness :
    (updateFlames [] 0 100
      ⟨⟨60, 60, 18, 26, 210, 165/100, 100, 100, 38, 22, ⟨true, 100, 100, 26, 14, 0, 2400⟩⟩,
        ⟨800, 500, 34, 24⟩,
        [⟨69, 73, 0, 0, 9/2, 0, 520⟩, ⟨69, 73, 0, 0, 9/2, 0, 520⟩],
        "running", "running"⟩).player.shield.durability = 48 := by
  rw [(shield_durability_after_hits [] 0 100
    ⟨⟨60, 60, 18, 26, 210, 165/100, 100, 100, 38, 22, ⟨true, 100, 100, 26, 14, 0, 2400⟩⟩,
      ⟨800, 500, 34, 24⟩,
      [⟨69, 73, 0, 0, 9/2, 0, 520⟩, ⟨69, 73, 0, 0, 9/2, 0, 520⟩],
      "running", "running"⟩
    rfl (by norm_num) (by norm_num) (by norm_num) (by norm_num)
    (by
      intro f hf
      simp only [List.mem_cons, List.not_mem_nil, or_false] at hf
      have hfe : f = ⟨69, 73, 0, 0, 9/2, 0, 520⟩ := by
        rcases hf with hf | hf <;> exact hf
      subst hfe
      unfold flameHits PlayerSt.rect
      refine ⟨by norm_num, rfl, ?_⟩
      dsimp only
      rw [Bool.or_eq_true]
      left
      norm_num [pointInRect])
    (by
      intro k hk1 hk2
      simp only [List.length_cons, List.length_nil] at hk2
      have hk : k = 1 := by omega
      subst hk
      norm_num)).1]
  norm_num

/-- Source `NAV_CELL = 22` pixels per navigation cell. -/
def NAV_CELL : ℚ := 22

/-- Source `inBounds(c, r)` over a `cols × rows` grid (`NAV_COLS`/`NAV_ROWS` are
`Math.floor(W / NAV_CELL)` and `Math.floor(H / NAV_CELL)`; the grid dimensions
are parameters here). -/
def inBounds (cols rows c r : ℤ) : Bool :=
  decide (c ≥ 0) && decide (r ≥ 0) && decide (c < cols) && decide (r < rows)

/-- Source `navIdx(c, r) = r * NAV_COLS + c`. -/
def navIdx (cols c r : ℤ) : ℤ := r * cols + c

/-- The inverse mapping used by the `aStar` path reconstruction:
`r = Math.floor(cur / NAV_COLS); c = cur - r * NAV_COLS`. -/
def cellOfIdx (cols idx : ℤ) : ℤ × ℤ := (idx - (Int.fdiv idx cols) * cols, Int.fdiv idx cols)

/-- Source `pointToCell(x, y)`: floor to a cell and clamp into the grid (the string
`key` of the source is the cell pair itself here). -/
def pointToCell (cols rows : ℤ) (x y : ℚ) : ℤ × ℤ :=
  (max 0 (min (cols - 1) ⌊x / NAV_CELL⌋), max 0 (min (rows - 1) ⌊y / NAV_CELL⌋))

/-- Source `cellCenter(c, r)`. -/
def cellCenter (c r : ℤ) : ℚ × ℚ :=
  ((c : ℚ) * NAV_CELL + NAV_CELL / 2, (r : ℚ) * NAV_CELL + NAV_CELL / 2)

/-- Source `isBlocked(c, r)`: out-of-bounds counts as blocked, otherwise read the
occupancy field (`navBlocked[navIdx(c, r)] === 1`; the `Uint8Array` is the
function `blocked`). -/
def isBlocked (cols rows : ℤ) (blocked : ℤ → ℤ → Bool) (c r : ℤ) : Bool :=
  if inBounds cols rows c r then blocked c r else true

/-- Source `rebuildNavGrid()`: a cell is blocked when a small probe rectangle at its
center meets any wall inflated by `10` pixels. -/
def rebuildNavGrid (walls : List Rect) (c r : ℤ) : Bool :=
  let cx := (c : ℚ) * NAV_CELL + NAV_CELL / 2
  let cy := (r : ℚ) * NAV_CELL + NAV_CELL / 2
  let probe : Rect := ⟨cx - 2, cy - 2, 4, 4⟩
  walls.any fun w => intersectsAABB probe ⟨w.x - 10, w.y - 10, w.w + 10 * 2, w.h + 10 * 2⟩

/-- The mutable per-cell arrays of `aStar` as functions of the cell index.
The source stores scores in `Float32Array`s whose reachable values — path
lengths, Manhattan distances and the `1e9` sentinel — are all integers that
`Float32` represents exactly, so they are modelled as `ℤ`. -/
structure AState where
  gScore : ℤ → ℤ
  fScore : ℤ → ℤ
  cameFrom : ℤ → Option ℤ
  inOpen : ℤ → Bool
  inClosed : ℤ → Bool

/-- The `1e9` initial score sentinel. -/
def INF : ℤ := 1000000000

/-- The Manhattan heuristic `h` of `aStar`. -/
def manh (a b : ℤ × ℤ) : ℤ := |a.1 - b.1| + |a.2 - b.2|

/-- The 4-neighbor directions of `aStar`, in source order. -/
def dirs : List (ℤ × ℤ) := [(1, 0), (-1, 0), (0, 1), (0, -1)]

/-- The open-list scan of `aStar`: the first element attaining the minimal
`fScore` is removed (spliced) and returned with the remaining list. -/
def pickBest (f : ℤ → ℤ) : List ℤ → ℤ × List ℤ
  | [] => (0, [])
  | [a] => (a, [])
  | a :: rest =>
    let best := pickBest f rest
    if f best.1 < f a then (best.1, a :: best.2) else (a, rest)

/-- The path reconstruction loop of `aStar` (`while (cur !== -1)`), with a
fuel bound: in the source the `cameFrom` chain always terminates; running out
of fuel is modelled as the no-path result. -/
def walkBack (cf : ℤ → Option ℤ) : ℕ → ℤ → Option (List ℤ)
  | 0, _ => none
  | fuel + 1, cur =>
    match cf cur with
    | none => some [cur]
    | some par => (walkBack cf fuel par).map (fun l => cur :: l)

/-- The neighbor-expansion body of `aStar` for one direction `d`: skip
out-of-bounds, blocked and closed cells; relax the tentative score; push the
cell on the open list if it is not already there. -/
def expandDir (cols rows : ℤ) (blocked : ℤ → ℤ → Bool) (goal : ℤ × ℤ)
    (currentIdx cc cr : ℤ) (acc : AState × List ℤ) (d : ℤ × ℤ) : AState × List ℤ :=
  let st := acc.1
  let nc := cc + d.1
  let nr := cr + d.2
  if ! inBounds cols rows nc nr then acc
  else if isBlocked cols rows blocked nc nr then acc
  else
    let ni := navIdx cols nc nr
    if st.inClosed ni then acc
    else
      let tentative := st.gScore currentIdx + 1
      if tentative < st.gScore ni then
        let st2 : AState :=
          { st with
            cameFrom := fun j => if j = ni then some currentIdx else st.cameFrom j,
            gScore := fun j => if j = ni then tentative else st.gScore j,
            fScore := fun j => if j = ni then tentative + manh (nc, nr) goal
              else st.fScore j }
        if st2.inOpen ni then (st2, acc.2)
        else ({ st2 with inOpen := fun j => if j = ni then true else st2.inOpen j },
          acc.2 ++ [ni])
      else acc

/-- The main loop of `aStar`, fueled: each iteration pops the best open node,
returns the reconstructed path when it is the goal, and expands its neighbors
otherwise.  In the source every iteration closes a fresh cell, so
`cols * rows + 1` fuel never runs out; exhaustion is modelled as no path. -/
def aStarLoop (cols rows : ℤ) (blocked : ℤ → ℤ → Bool) (goal : ℤ × ℤ) :
    ℕ → AState → List ℤ → Option (List (ℤ × ℤ))
  | 0, _, _ => none
  | fuel + 1, st, openList =>
    match openList with
    | [] => none
    | _ :: _ =>
      let pick := pickBest st.fScore openList
      let currentIdx := pick.1
      let st1 : AState :=
        { st with
          inOpen := fun j => if j = currentIdx then false else st.inOpen j,
          inClosed := fun j => if j = currentIdx then true else st.inClosed j }
      if currentIdx = navIdx cols goal.1 goal.2 then
        (walkBack st1.cameFrom ((cols * rows).toNat + 1) currentIdx).map
          (fun l => (l.map (cellOfIdx cols)).reverse)
      else
        let ex := dirs.foldl
          (expandDir cols rows blocked goal currentIdx
            (cellOfIdx cols currentIdx).1 (cellOfIdx cols currentIdx).2)
          (st1, pick.2)
        aStarLoop cols rows blocked goal fuel ex.1 ex.2

/-- Source `aStar(start, goal)`: initialize the score arrays and the open list with
the start cell and run the loop. -/
def aStar (cols rows : ℤ) (blocked : ℤ → ℤ → Bool) (start goal : ℤ × ℤ) :
    Option (List (ℤ × ℤ)) :=
  let startIdx := navIdx cols start.1 start.2
  let st0 : AState :=
    { gScore := fun j => if j = startIdx then 0 else INF
      fScore := fun j => if j = startIdx then manh start goal else INF
      cameFrom := fun _ => none
      inOpen := fun j => decide (j = startIdx)
      inClosed := fun _ => false }
  aStarLoop cols rows blocked goal ((cols * rows).toNat + 1) st0 [startIdx]

/-- Offsets `-rad .. rad`, the loop ranges of the ring search in
`buildPathTo`. -/
def ringOffsets (rad : ℕ) : List ℤ := (List.range (2 * rad + 1)).map fun (i : ℕ) => (i : ℤ) - (rad : ℤ)

/-- The expanding-ring search of `buildPathTo`: for `rad = 1..4` scan the
square `[-rad, rad]²` around the blocked target cell (row-major, as in the
source) and return the first in-bounds unblocked cell. -/
def ringScan (cols rows : ℤ) (blocked : ℤ → ℤ → Bool) (tc : ℤ × ℤ) : Option (ℤ × ℤ) :=
  ([1, 2, 3, 4] : List ℕ).findSome? fun rad =>
    (ringOffsets rad).findSome? fun dr =>
      (ringOffsets rad).findSome? fun dc =>
        let c := tc.1 + dc
        let r := tc.2 + dr
        if inBounds cols rows c r && ! isBlocked cols rows blocked c r then some (c, r)
        else none

/-- The goal cell `buildPathTo` actually routes to: the target's cell, or the
ring-search substitute when that cell is blocked (kept when the ring search
finds nothing). -/
def effectiveGoal (cols rows : ℤ) (blocked : ℤ → ℤ → Bool) (targetX targetY : ℚ) : ℤ × ℤ :=
  let tc := pointToCell cols rows targetX targetY
  if isBlocked cols rows blocked tc.1 tc.2 then
    match ringScan cols rows blocked tc with
    | some found => found
    | none => tc
  else tc

/-- Source `buildPathTo(targetX, targetY)`: returns the waypoint list (the cell
sequence minus the start cell, mapped to cell centers) or `none` where the
source returns `false` and leaves the monster's path unchanged. -/
def buildPathTo (cols rows : ℤ) (blocked : ℤ → ℤ → Bool) (monster : Rect)
    (targetX targetY : ℚ) : Option (List (ℚ × ℚ)) :=
  let mc := pointToCell cols rows (monster.x + monster.w / 2) (monster.y + monster.h / 2)
  let tc := effectiveGoal cols rows blocked targetX targetY
  if isBlocked cols rows blocked mc.1 mc.2 || isBlocked cols rows blocked tc.1 tc.2 then
    none
  else
    match aStar cols rows blocked mc tc with
    | none => none
    | some cells =>
      if cells.length < 2 then none
      else some ((cells.drop 1).map fun p => cellCenter p.1 p.2)

/-- The monster fields written by a successful `buildPathTo`. -/
structure MonsterNav where
  path : List (ℚ × ℚ)
  pathIdx : ℕ
  lastTargetKey : Option (ℤ × ℤ)
deriving DecidableEq

/-- Source `buildPathTo`'s effect on the monster's pathing state: install the
waypoints on success, otherwise leave everything unchanged. -/
def applyBuildPath (cols rows : ℤ) (blocked : ℤ → ℤ → Bool) (monster : Rect)
    (targetX targetY : ℚ) (nav : MonsterNav) : MonsterNav :=
  match buildPathTo cols rows blocked monster targetX targetY with
  | some wps =>
    { path := wps, pathIdx := 0,
      lastTargetKey := some (effectiveGoal cols rows blocked targetX targetY) }
  | none => nav

/-- Cells that differ by exactly one in exactly one of column/row. -/
def adj4 (a b : ℤ × ℤ) : Prop := |b.1 - a.1| + |b.2 - a.2| = 1

lemma inBounds_eq_true (cols rows c r : ℤ) :
    inBounds cols rows c r = true ↔ (0 ≤ c ∧ 0 ≤ r ∧ c < cols ∧ r < rows) := by
  simp [inBounds, and_assoc, ge_iff_le]

lemma isBlocked_false_inBounds (cols rows : ℤ) (blocked : ℤ → ℤ → Bool) (c r : ℤ)
    (h : isBlocked cols rows blocked c r = false) : inBounds cols rows c r = true := by
  unfold isBlocked at h
  split_ifs at h with hi
  exact hi

lemma cellOfIdx_navIdx (cols nc nr : ℤ) (h0 : 0 ≤ nc) (h1 : nc < cols) :
    cellOfIdx cols (navIdx cols nc nr) = (nc, nr) := by
  have hcols : 0 < cols := lt_of_le_of_lt h0 h1
  unfold cellOfIdx navIdx
  have hfd : Int.fdiv (nr * cols + nc) cols = nr := by
    rw [Int.fdiv_eq_ediv _ (le_of_lt hcols), add_comm (nr * cols) nc,
      Int.add_mul_ediv_right nc nr (ne_of_gt hcols),
      Int.ediv_eq_zero_of_lt h0 h1, zero_add]
  rw [hfd]
  simp only [Prod.mk.injEq]
  exact ⟨by ring, trivial⟩

/-- The `cameFrom` invariant of the `aStar` loop: every recorded predecessor
link leaves an in-grid unblocked cell and joins 4-adjacent cells. -/
def camOK (cols rows : ℤ) (blocked : ℤ → ℤ → Bool) (cf : ℤ → Option ℤ) : Prop :=
  ∀ n m : ℤ, cf n = some m →
    isBlocked cols rows blocked (cellOfIdx cols n).1 (cellOfIdx cols n).2 = false ∧
    adj4 (cellOfIdx cols m) (cellOfIdx cols n)

lemma camOK_update (cols rows : ℤ) (blocked : ℤ → ℤ → Bool) (cf : ℤ → Option ℤ)
    (hacc : camOK cols rows blocked cf) (currentIdx nc nr : ℤ)
    (hin : inBounds cols rows nc nr = true)
    (hbl : isBlocked cols rows blocked nc nr = false)
    (hadj : adj4 (cellOfIdx cols currentIdx) (nc, nr)) :
    camOK cols rows blocked
      (fun j => if j = navIdx cols nc nr then some currentIdx else cf j) := by
  intro n m hnm
  dsimp only at hnm
  by_cases hn : n = navIdx cols nc nr
  · subst hn
    rw [if_pos rfl] at hnm
    have hm : currentIdx = m := by injection hnm
    subst hm
    obtain ⟨hb0, _, hb1, _⟩ := (inBounds_eq_true cols rows nc nr).mp hin
    have hcell : cellOfIdx cols (navIdx cols nc nr) = (nc, nr) :=
      cellOfIdx_navIdx cols nc nr hb0 hb1
    rw [hcell]
    exact ⟨hbl, hadj⟩
  · rw [if_neg hn] at hnm
    exact hacc n m hnm

lemma expandDir_camOK (cols rows : ℤ) (blocked : ℤ → ℤ → Bool) (goal : ℤ × ℤ)
    (currentIdx : ℤ) (acc : AState × List ℤ) (d : ℤ × ℤ) (hd : |d.1| + |d.2| = 1)
    (hacc : camOK cols rows blocked acc.1.cameFrom) :
    camOK cols rows blocked
      ((expandDir cols rows blocked goal currentIdx
        (cellOfIdx cols currentIdx).1 (cellOfIdx cols currentIdx).2 acc d)).1.cameFrom := by
  unfold expandDir
  dsimp only
  split_ifs with h1 h2 h3 h4 h5 <;> try exact hacc
  all_goals {
    have hin : inBounds cols rows ((cellOfIdx cols currentIdx).1 + d.1)
        ((cellOfIdx cols currentIdx).2 + d.2) = true := by
      revert h1
      cases inBounds cols rows ((cellOfIdx cols currentIdx).1 + d.1)
        ((cellOfIdx cols currentIdx).2 + d.2) <;> simp
    have hbl : isBlocked cols rows blocked ((cellOfIdx cols currentIdx).1 + d.1)
        ((cellOfIdx cols currentIdx).2 + d.2) = false := by
      revert h2
      cases isBlocked cols rows blocked ((cellOfIdx cols currentIdx).1 + d.1)
        ((cellOfIdx cols currentIdx).2 + d.2) <;> simp
    have hadj : adj4 (cellOfIdx cols currentIdx)
        ((cellOfIdx cols currentIdx).1 + d.1, (cellOfIdx cols currentIdx).2 + d.2) := by
      unfold adj4
      dsimp only
      simp only [add_sub_cancel_left]
      exact hd
    exact camOK_update cols rows blocked acc.1.cameFrom hacc currentIdx _ _ hin hbl hadj
  }

lemma foldl_expandDir_camOK (cols rows : ℤ) (blocked : ℤ → ℤ → Bool) (goal : ℤ × ℤ)
    (currentIdx : ℤ) (acc : AState × List ℤ)
    (hacc : camOK cols rows blocked acc.1.cameFrom) :
    camOK cols rows blocked
      ((dirs.foldl (expandDir cols rows blocked goal currentIdx
        (cellOfIdx cols currentIdx).1 (cellOfIdx cols currentIdx).2) acc)).1.cameFrom := by
  unfold dirs
  simp only [List.foldl_cons, List.foldl_nil]
  exact expandDir_camOK cols rows blocked goal currentIdx _ _ (by decide)
    (expandDir_camOK cols rows blocked goal currentIdx _ _ (by decide)
      (expandDir_camOK cols rows blocked goal currentIdx _ _ (by decide)
        (expandDir_camOK cols rows blocked goal currentIdx _ _ (by decide) hacc)))

lemma walkBack_spec (cf : ℤ → Option ℤ) (fuel : ℕ) :
    ∀ (cur : ℤ) (l : List ℤ), walkBack cf fuel cur = some l →
      l ≠ [] ∧ l.head? = some cur ∧
      List.Chain' (fun a b => cf a = some b) l ∧
      ∀ x ∈ l.dropLast, ∃ y, cf x = some y := by
  induction fuel with
  | zero =>
    intro cur l h
    exact absurd h (by simp [walkBack])
  | succ fuel ih =>
    intro cur l h
    unfold walkBack at h
    cases hcf : cf cur with
    | none =>
      rw [hcf] at h
      have hl : [cur] = l := by injection h
      subst hl
      refine ⟨by simp, rfl, by simp, by simp⟩
    | some par =>
      rw [hcf] at h
      obtain ⟨l2, hl2, hmap⟩ := Option.map_eq_some'.mp h
      obtain ⟨hne, hhead, hchain, hdl⟩ := ih par l2 hl2
      subst hmap
      refine ⟨by simp, rfl, ?_, ?_⟩
      · rw [List.chain'_cons']
        refine ⟨?_, hchain⟩
        intro b hb
        rw [hhead] at hb
        have hbpar : par = b := by injection hb
        rw [← hbpar]
        exact hcf
      · intro x hx
        rw [List.dropLast_cons_of_ne_nil hne] at hx
        rcases List.mem_cons.mp hx with hx | hx
        · subst hx
          exact ⟨par, hcf⟩
        · exact hdl x hx

lemma reverse_tail_dropLast {α : Type} (l : List α) : l.reverse.tail = l.dropLast.reverse := by
  induction l using List.reverseRecOn with
  | nil => rfl
  | append_singleton ys y ih => simp

lemma aStarLoop_spec (cols rows : ℤ) (blocked : ℤ → ℤ → Bool) (goal : ℤ × ℤ) (fuel : ℕ) :
    ∀ (st : AState) (ol : List ℤ),
      camOK cols rows blocked st.cameFrom →
      ∀ cells, aStarLoop cols rows blocked goal fuel st ol = some cells →
        cells ≠ [] ∧
        cells.getLast? = some (cellOfIdx cols (navIdx cols goal.1 goal.2)) ∧
        List.Chain' adj4 cells ∧
        ∀ p ∈ cells.tail, isBlocked cols rows blocked p.1 p.2 = false := by
  induction fuel with
  | zero =>
    intro st ol hcam cells h
    exact absurd h (by simp [aStarLoop])
  | succ fuel ih =>
    intro st ol hcam cells h
    unfold aStarLoop at h
    cases ol with
    | nil => exact absurd h (by simp)
    | cons o os =>
      dsimp only at h
      split_ifs at h with hgoal
      · obtain ⟨l, hwb, hmap⟩ := Option.map_eq_some'.mp h
        obtain ⟨hne, hhead, hchain, hdl⟩ := walkBack_spec _ _ _ _ hwb
        subst hmap
        refine ⟨by simp [hne], ?_, ?_, ?_⟩
        · rw [List.getLast?_reverse, List.head?_map, hhead, hgoal]
          rfl
        · rw [List.chain'_reverse]
          apply List.chain'_map_of_chain' (cellOfIdx cols) ?_ hchain
          intro a b hab
          exact (hcam a b hab).2
        · intro p hp
          rw [reverse_tail_dropLast, List.mem_reverse, ← List.map_dropLast] at hp
          obtain ⟨x, hxmem, hxeq⟩ := List.mem_map.mp hp
          obtain ⟨y, hy⟩ := hdl x hxmem
          have hbl := (hcam x y hy).1
          rw [← hxeq]
          exact hbl
      · exact ih _ _ (foldl_expandDir_camOK cols rows blocked goal _ _ hcam) cells h

lemma aStar_spec (cols rows : ℤ) (blocked : ℤ → ℤ → Bool) (start goal : ℤ × ℤ)
    (cells : List (ℤ × ℤ)) (h : aStar cols rows blocked start goal = some cells) :
    cells ≠ [] ∧
    cells.getLast? = some (cellOfIdx cols (navIdx cols goal.1 goal.2)) ∧
    List.Chain' adj4 cells ∧
    ∀ p ∈ cells.tail, isBlocked cols rows blocked p.1 p.2 = false := by
  unfold aStar at h
  exact aStarLoop_spec cols rows blocked goal _ _ _
    (fun n m hnm => absurd hnm (by simp)) cells h

/-- Claim C1: whenever `buildPathTo` succeeds, the installed waypoint list is
the image under `cellCenter` of a nonempty cell sequence in which every cell
is unblocked, consecutive cells are 4-adjacent, and the last cell is the
requested goal cell (or the free substitute the ring search remapped it to),
i.e. `effectiveGoal`. -/
theorem buildPathTo_valid (cols rows : ℤ) (blocked : ℤ → ℤ → Bool) (monster : Rect)
    (tx ty : ℚ) (wps : List (ℚ × ℚ))
    (hsucc : buildPathTo cols rows blocked monster tx ty = some wps) :
    ∃ cells : List (ℤ × ℤ),
      wps = cells.map (fun p => cellCenter p.1 p.2) ∧
      cells ≠ [] ∧
      (∀ p ∈ cells, isBlocked cols rows blocked p.1 p.2 = false) ∧
      List.Chain' adj4 cells ∧
      cells.getLast? = some (effectiveGoal cols rows blocked tx ty) := by
  unfold buildPathTo at hsucc
  dsimp only at hsucc
  split_ifs at hsucc with hblk
  rw [Bool.or_eq_true] at hblk
  push_neg at hblk
  obtain ⟨hmc, htc⟩ := hblk
  have htcF : isBlocked cols rows blocked (effectiveGoal cols rows blocked tx ty).1
      (effectiveGoal cols rows blocked tx ty).2 = false := by
    revert htc
    cases isBlocked cols rows blocked (effectiveGoal cols rows blocked tx ty).1
      (effectiveGoal cols rows blocked tx ty).2 <;> simp
  obtain ⟨hb0, hbr0, hb1, hbr1⟩ :=
    (inBounds_eq_true ..).mp (isBlocked_false_inBounds cols rows blocked _ _ htcF)
  cases hast : aStar cols rows blocked
      (pointToCell cols rows (monster.x + monster.w / 2) (monster.y + monster.h / 2))
      (effectiveGoal cols rows blocked tx ty) with
  | none =>
    rw [hast] at hsucc
    exact absurd hsucc (by simp)
  | some cells =>
    rw [hast] at hsucc
    dsimp only at hsucc
    split_ifs at hsucc with hlen
    have hwps : ((cells.drop 1).map fun p => cellCenter p.1 p.2) = wps := by
      injection hsucc
    obtain ⟨hne, hlast, hchain, htail⟩ := aStar_spec cols rows blocked _ _ cells hast
    have hcell : cellOfIdx cols (navIdx cols (effectiveGoal cols rows blocked tx ty).1
        (effectiveGoal cols rows blocked tx ty).2) = effectiveGoal cols rows blocked tx ty := by
      rw [cellOfIdx_navIdx cols _ _ hb0 hb1]
    rw [hcell] at hlast
    refine ⟨cells.drop 1, hwps.symm, ?_, ?_, ?_, ?_⟩
    · rw [List.drop_one]
      apply List.ne_nil_of_length_pos
      rw [List.length_tail]
      omega
    · rw [List.drop_one]
      exact htail
    · rw [List.drop_one]
      exact hchain.tail
    · rw [List.drop_one]
      rcases cells with _ | ⟨c0, _ | ⟨c1, cs⟩⟩
      · exact absurd rfl hne
      · exact absurd (by simp) hlen
      · rw [List.getLast?_cons_cons] at hlast
        exact hlast

/-- Witness for C1: on a free 4 × 1 grid with the monster at the origin cell,
`buildPathTo` toward the point `(80, 11)` installs the three cell centers
`(33, 11), (55, 11), (77, 11)`, and the theorem's conclusions hold for it. -/
theorem buildPathTo_valid_witness :
    ∃ cells : List (ℤ × ℤ),
      [((33 : ℚ), (11 : ℚ)), (55, 11), (77, 11)] =
        cells.map (fun p => cellCenter p.1 p.2) ∧
      cells ≠ [] ∧
      (∀ p ∈ cells, isBlocked 4 1 (fun _ _ => false) p.1 p.2 = false) ∧
      List.Chain' adj4 cells ∧
      cells.getLast? = some (effectiveGoal 4 1 (fun _ _ => false) 80 11) :=
  buildPathTo_valid 4 1 (fun _ _ => false) ⟨0, 0, 0, 0⟩ 80 11
    [((33 : ℚ), (11 : ℚ)), (55, 11), (77, 11)] (by
      have hpt1 : pointToCell 4 1 ((0 : ℚ) + 0 / 2) ((0 : ℚ) + 0 / 2) = (0, 0) := by
        unfold pointToCell NAV_CELL
        norm_num [min_def, max_def]
      have hpt2 : pointToCell 4 1 80 11 = (3, 0) := by
        unfold pointToCell NAV_CELL
        norm_num [min_def, max_def]
      have hgoal : effectiveGoal 4 1 (fun _ _ => false) 80 11 = (3, 0) := by
        unfold effectiveGoal
        dsimp only
        rw [hpt2]
        rw [if_neg (by decide)]
      have hstar : aStar 4 1 (fun _ _ => false) (0, 0) (3, 0)
          = some [(0, 0), (1, 0), (2, 0), (3, 0)] := by decide
      unfold buildPathTo
      dsimp only
      rw [hpt1, hgoal, if_neg (by decide), hstar]
      norm_num [cellCenter, NAV_CELL])

lemma ringOffsets_bound (rad : ℕ) (x : ℤ) (hx : x ∈ ringOffsets rad) :
    -(rad : ℤ) ≤ x ∧ x ≤ (rad : ℤ) := by
  unfold ringOffsets at hx
  rw [List.mem_map] at hx
  obtain ⟨i, hi, rfl⟩ := hx
  rw [List.mem_range] at hi
  omega

/-- Claim C6: the ring search of `buildPathTo` retargets only to free cells;
and when the target's cell is blocked and every in-bounds cell within
Chebyshev distance 4 is blocked too (so the ring search finds nothing), or
when the start cell is blocked, `buildPathTo` returns the failure value and
installs no new path — the monster's pathing state is left unchanged. -/
theorem buildPathTo_blocked_failure (cols rows : ℤ) (blocked : ℤ → ℤ → Bool)
    (monster : Rect) (tx ty : ℚ) (nav : MonsterNav) :
    (∀ found, ringScan cols rows blocked (pointToCell cols rows tx ty) = some found →
      isBlocked cols rows blocked found.1 found.2 = false) ∧
    ((isBlocked cols rows blocked (pointToCell cols rows tx ty).1
        (pointToCell cols rows tx ty).2 = true ∧
      ∀ dc dr : ℤ, |dc| ≤ 4 → |dr| ≤ 4 →
        isBlocked cols rows blocked ((pointToCell cols rows tx ty).1 + dc)
          ((pointToCell cols rows tx ty).2 + dr) = true) →
      buildPathTo cols rows blocked monster tx ty = none ∧
      applyBuildPath cols rows blocked monster tx ty nav = nav) ∧
    (isBlocked cols rows blocked
        (pointToCell cols rows (monster.x + monster.w / 2)
          (monster.y + monster.h / 2)).1
        (pointToCell cols rows (monster.x + monster.w / 2)
          (monster.y + monster.h / 2)).2 = true →
      buildPathTo cols rows blocked monster tx ty = none ∧
      applyBuildPath cols rows blocked monster tx ty nav = nav) := by
  have hfail : ∀ htrue : (isBlocked cols rows blocked
        (pointToCell cols rows (monster.x + monster.w / 2)
          (monster.y + monster.h / 2)).1
        (pointToCell cols rows (monster.x + monster.w / 2)
          (monster.y + monster.h / 2)).2 ||
      isBlocked cols rows blocked (effectiveGoal cols rows blocked tx ty).1
        (effectiveGoal cols rows blocked tx ty).2) = true,
      buildPathTo cols rows blocked monster tx ty = none := by
    intro htrue
    unfold buildPathTo
    dsimp only
    rw [if_pos htrue]
  have happly : buildPathTo cols rows blocked monster tx ty = none →
      applyBuildPath cols rows blocked monster tx ty nav = nav := by
    intro hnone
    unfold applyBuildPath
    rw [hnone]
  refine ⟨?_, ?_, ?_⟩
  · intro found hfs
    unfold ringScan at hfs
    obtain ⟨rad, hradmem, hrad⟩ := List.exists_of_findSome?_eq_some hfs
    obtain ⟨dr, hdrmem, hdr⟩ := List.exists_of_findSome?_eq_some hrad
    obtain ⟨dc, hdcmem, hdc⟩ := List.exists_of_findSome?_eq_some hdr
    dsimp only at hdc
    split_ifs at hdc with hcond
    have hfound : ((pointToCell cols rows tx ty).1 + dc,
        (pointToCell cols rows tx ty).2 + dr) = found := by
      injection hdc
    rw [Bool.and_eq_true] at hcond
    have hnb : isBlocked cols rows blocked ((pointToCell cols rows tx ty).1 + dc)
        ((pointToCell cols rows tx ty).2 + dr) = false := by
      have h2 := hcond.2
      revert h2
      cases isBlocked cols rows blocked ((pointToCell cols rows tx ty).1 + dc)
        ((pointToCell cols rows tx ty).2 + dr) <;> simp
    rw [← hfound]
    exact hnb
  · rintro ⟨htc, hall⟩
    have hring : ringScan cols rows blocked (pointToCell cols rows tx ty) = none := by
      unfold ringScan
      rw [List.findSome?_eq_none_iff]
      intro rad hradmem
      rw [List.findSome?_eq_none_iff]
      intro dr hdrmem
      rw [List.findSome?_eq_none_iff]
      intro dc hdcmem
      have hradle : (rad : ℤ) ≤ 4 := by
        simp only [List.mem_cons, List.not_mem_nil, or_false] at hradmem
        rcases hradmem with rfl | rfl | rfl | rfl <;> norm_num
      obtain ⟨hdr1, hdr2⟩ := ringOffsets_bound rad dr hdrmem
      obtain ⟨hdc1, hdc2⟩ := ringOffsets_bound rad dc hdcmem
      dsimp only
      rw [if_neg]
      intro hcond
      rw [Bool.and_eq_true] at hcond
      have hblocked := hall dc dr (abs_le.mpr ⟨by omega, by omega⟩)
        (abs_le.mpr ⟨by omega, by omega⟩)
      rw [hblocked] at hcond
      exact absurd hcond.2 (by simp)
    have hgoal : effectiveGoal cols rows blocked tx ty = pointToCell cols rows tx ty := by
      unfold effectiveGoal
      dsimp only
      rw [if_pos htc, hring]
    have hnone := hfail (by
      rw [Bool.or_eq_true]
      right
      rw [hgoal]
      exact htc)
    exact ⟨hnone, happly hnone⟩
  · intro hmc
    have hnone := hfail (by
      rw [Bool.or_eq_true]
      left
      exact hmc)
    exact ⟨hnone, happly hnone⟩

/-- Witness for C6: on a 4 × 1 grid whose occupancy field marks every cell
blocked, routing toward `(80, 11)` fails and leaves the monster path state
unchanged. -/
theorem buildPathTo_blocked_failure_witness :
    buildPathTo 4 1 (fun _ _ => true) ⟨0, 0, 0, 0⟩ 80 11 = none ∧
    applyBuildPath 4 1 (fun _ _ => true) ⟨0, 0, 0, 0⟩ 80 11 ⟨[], 0, none⟩ = ⟨[], 0, none⟩ :=
  (buildPathTo_blocked_failure 4 1 (fun _ _ => true) ⟨0, 0, 0, 0⟩ 80 11 ⟨[], 0, none⟩).2.1
    ⟨by
      have hpt2 : pointToCell 4 1 80 11 = (3, 0) := by
        unfold pointToCell NAV_CELL
        norm_num [min_def, max_def]
      rw [hpt2]
      decide, by
      intro dc dr _ _
      unfold isBlocked
      split_ifs <;> rfl⟩
